import Mathlib

/-!
Verification development for the `toist` todo-list component.

The authoritative implementation is `src/app/page.js` (the refined version of
the component, with input validation, `completedAt` handling and guarded
persistence effects); `src/unnamed/part_000` is an earlier draft of the same
component. Definitions below are direct translations of the functions in
`src/app/page.js`.

Modelling conventions:
- JS strings become Lean `String`; `String.prototype.trim` becomes `jsTrim`
  below and `.length` becomes `String.length` (the claims never depend on
  the exact whitespace set or on UTF-16 code-unit counting).
- `Date.now()` and `Math.random().toString(36).substr(2, 9)` are environment
  inputs; every operation that reads the clock or the random source takes the
  corresponding value as an explicit argument (the injectable clock of the
  spec, section 9).
- A record field holding JS `null` and an absent field are both modelled as
  `Option.none`, following the spec, section 6, which treats
  "field omitted or null" as the not-completed representation: a fresh record
  is created with `completedAt: null` and toggling back to incomplete removes
  the field, and both states denote "no completion timestamp".
-/

/-- A task record, the shape built by `addTodo` in `src/app/page.js`:
`{ id, text, completed, createdAt, completedAt }`. -/
structure Todo where
  id : String
  text : String
  completed : Bool
  createdAt : String
  completedAt : Option String
  deriving Repr, DecidableEq

/-- The component state touched by the store operations: the `todos`,
`inputValue` and `error` `useState` cells of `src/app/page.js`. -/
structure AppState where
  todos : List Todo
  inputValue : String
  error : String
  deriving Repr, DecidableEq

/-- JS `String.prototype.trim`: removes leading and trailing whitespace.
Defined over the underlying character list (rather than through
`String.trim`, which is byte-position based) so that concrete instances
compute by kernel reduction; the whitespace set is `Char.isWhitespace`. -/
def jsTrim (s : String) : String :=
  ⟨((s.data.dropWhile Char.isWhitespace).reverse.dropWhile Char.isWhitespace).reverse⟩

/-- `generateId` from `src/app/page.js`:
`` `${Date.now()}-${Math.random().toString(36).substr(2, 9)}` ``.
`now` is the millisecond clock reading and `rand` the random suffix. -/
def generateId (now : Nat) (rand : String) : String :=
  toString now ++ "-" ++ rand

/-- `addTodo` from `src/app/page.js` (lines 135-159). Trims the input; an
empty trimmed value or a trimmed value longer than 200 characters only sets
the corresponding error message; otherwise a fresh record is appended, the
input is cleared and the error is cleared. `now`, `rand` and `createdAt` are
the clock and randomness readings taken inside the function
(`Date.now()`, the random suffix, `new Date().toISOString()`). -/
def addTodo (now : Nat) (rand : String) (createdAt : String)
    (s : AppState) : AppState :=
  let trimmedValue := jsTrim s.inputValue
  if trimmedValue = "" then
    { s with error := "Please enter a task." }
  else if trimmedValue.length > 200 then
    { s with error := "Task is too long. Please keep it under 200 characters." }
  else
    let newTodo : Todo :=
      { id := generateId now rand
        text := trimmedValue
        completed := false
        createdAt := createdAt
        completedAt := none }
    { s with todos := s.todos ++ [newTodo], inputValue := "", error := "" }

/-- `toggleTodo` from `src/app/page.js` (lines 161-175): maps over the list;
on the matching id the `completed` flag is negated, `completedAt` is set to
the current timestamp on the false-to-true transition and removed on the
true-to-false transition. `now` is the `new Date().toISOString()` reading. -/
def toggleTodo (id : String) (now : String) (s : AppState) : AppState :=
  { s with
    todos := s.todos.map fun todo =>
      if todo.id = id then
        { todo with
          completed := !todo.completed
          completedAt := if !todo.completed then some now else none }
      else todo }

/-- `deleteTodo` from `src/app/page.js` (lines 177-179):
`todos.filter(todo => todo.id !== id)`. -/
def deleteTodo (id : String) (s : AppState) : AppState :=
  { s with todos := s.todos.filter fun todo => todo.id ≠ id }

/-- `clearCompleted` from `src/app/page.js` (lines 181-183):
`todos.filter(todo => !todo.completed)`. -/
def clearCompleted (s : AppState) : AppState :=
  { s with todos := s.todos.filter fun todo => !todo.completed }

/-- The initial component state: `useState([])`, `useState('')`,
`useState('')`. -/
def initialState : AppState := ⟨[], "", ""⟩

/-- One user-driven store mutation, together with the environment readings it
consumes. `add input now rand createdAt` models typing `input` into the text
field (the `onChange` handler sets `inputValue`) and then submitting, which
invokes `addTodo`. -/
inductive Op where
  | add (input : String) (now : Nat) (rand : String) (createdAt : String)
  | toggle (id : String) (now : String)
  | del (id : String)
  | clear
  deriving Repr, DecidableEq

/-- Apply one operation to the component state. -/
def applyOp (s : AppState) : Op → AppState
  | .add input now rand createdAt => addTodo now rand createdAt { s with inputValue := input }
  | .toggle id now => toggleTodo id now s
  | .del id => deleteTodo id s
  | .clear => clearCompleted s

/-- Run a sequence of operations from the initial (empty) state. -/
def runOps (ops : List Op) : AppState :=
  ops.foldl applyOp initialState

/-- The ids of the records in a list, in order. -/
def idsOf (todos : List Todo) : List String :=
  todos.map fun t => t.id

/-- Erase the completion timestamp of a record; two lists that agree after
mapping this function are equal except possibly in `completedAt` values. -/
def forgetCompletedAt (t : Todo) : Todo := { t with completedAt := none }

/-- The per-record completion invariant: a completion timestamp is recorded
exactly while the record is completed. -/
def CompletionOk (t : Todo) : Prop := t.completedAt.isSome ↔ t.completed = true

instance (t : Todo) : Decidable (CompletionOk t) := by
  unfold CompletionOk; infer_instance

/-- The id generated by an `add` operation (the `generateId` reading an add
consumes); toggle, delete and clear generate none. -/
def opGenId : Op → Option String
  | .add _ now rand _ => some (generateId now rand)
  | _ => none

/-- All ids generated along an operation sequence, in order. -/
def genIds (ops : List Op) : List String := ops.filterMap opGenId

/-!
Persistence. The storage medium is the single `localStorage` slot under the
fixed key `"toist-todos"`. `JSON.stringify` and `JSON.parse` are modelled at
the granularity of the JSON document: a stored string either is not valid
JSON (`JSON.parse` throws) or denotes a JSON value, and
`JSON.parse(JSON.stringify(v))` returns a value structurally equal to `v`
for the JSON-safe values the component stores. The todo data only ever uses
null, booleans, strings, arrays and objects, so JSON numbers are not needed.
-/

/-- The fixed storage key (`src/app/page.js` lines 98 and 116). -/
def storageKey : String := "toist-todos"

/-- A JSON document, as produced by `JSON.parse`. -/
inductive Json where
  | null
  | bool (b : Bool)
  | str (s : String)
  | arr (elems : List Json)
  | obj (fields : List (String × Json))

/-- The raw value in the storage slot: absent (or the empty string, which the
`if (savedTodos)` guard treats the same way), present but not parseable as
JSON, or present and denoting the JSON document `j`. -/
inductive Stored where
  | empty
  | malformed
  | doc (j : Json)

/-- First binding of a key in a JSON object field list. -/
def findField : List (String × Json) → String → Option Json
  | [], _ => none
  | (k, v) :: rest, key => if k = key then some v else findField rest key

/-- JS property access on a parsed JSON value: defined on objects, `none`
(undefined) otherwise. -/
def Json.getField (j : Json) (key : String) : Option Json :=
  match j with
  | .obj fields => findField fields key
  | _ => none

/-- `JSON.stringify` of one task record, at document granularity: the object
literal built by `addTodo` lists the fields in the order
`id, text, completed, createdAt, completedAt`, and `stringify` preserves
property insertion order. A record without a completion timestamp is
serialized with `completedAt: null` (the representation `addTodo` creates;
spec section 6 allows the field to be null or omitted interchangeably). -/
def encodeTodo (t : Todo) : Json :=
  .obj [("id", .str t.id),
        ("text", .str t.text),
        ("completed", .bool t.completed),
        ("createdAt", .str t.createdAt),
        ("completedAt", match t.completedAt with
          | none => .null
          | some u => .str u)]

/-- `JSON.stringify` of the whole list. -/
def encodeTodos (todos : List Todo) : Json :=
  .arr (todos.map encodeTodo)

/-- `saveTodos` from `src/app/page.js` (lines 112-122) at storage-cell
granularity: the serialized full list overwrites the value under the fixed
key (the try/catch quota-failure path is outside this model: writes are
modelled as succeeding). -/
def saveTodos (todos : List Todo) : Stored :=
  .doc (encodeTodos todos)

/-- The load effect of `src/app/page.js` (lines 94-109), which runs against
the initial state (`todos = []`, `error = ''`): an absent value leaves the
state alone; a value that parses is installed by `setTodos` exactly as
`JSON.parse` returned it, with no structural validation; a value that fails
to parse lands in the catch block, which keeps the empty list and sets the
load-failure message. The result is the `todos` value after the effect
(still an untyped JSON document) and the error string. -/
def loadEffect : Stored → Json × String
  | .empty => (.arr [], "")
  | .doc j => (j, "")
  | .malformed => (.arr [], "Failed to load saved todos. Starting fresh.")

/-- Reading one task record back from a parsed JSON object, through the field
accesses the component performs on loaded records (`todo.id`, `todo.text`,
`todo.completed`, `todo.createdAt`, `todo.completedAt`); a missing or null
`completedAt` reads back as no timestamp. `none` when the value does not
carry the record fields at the expected types. -/
def readTodo (j : Json) : Option Todo :=
  match j.getField "id", j.getField "text",
      j.getField "completed", j.getField "createdAt" with
  | some (.str id), some (.str text), some (.bool completed), some (.str createdAt) =>
    some { id := id
           text := text
           completed := completed
           createdAt := createdAt
           completedAt := match j.getField "completedAt" with
             | some (.str u) => some u
             | _ => none }
  | _, _, _, _ => none

/-- Reading a list of records element by element. -/
def readTodoList : List Json → Option (List Todo)
  | [] => some []
  | x :: xs =>
    match readTodo x, readTodoList xs with
    | some t, some ts => some (t :: ts)
    | _, _ => none

/-- Reading a whole task list from a parsed JSON document. -/
def readTodos (j : Json) : Option (List Todo) :=
  match j with
  | .arr xs => readTodoList xs
  | _ => none

/-- A record satisfying the data-model invariants of spec section 3. -/
def ValidTodo (t : Todo) : Prop :=
  jsTrim t.text = t.text ∧ t.text ≠ "" ∧ t.text.length ≤ 200 ∧
  (t.completedAt.isSome ↔ t.completed = true)

/-- A task list satisfying the data-model invariants of spec section 3. -/
def ValidList (l : List Todo) : Prop :=
  (∀ t ∈ l, ValidTodo t) ∧ (idsOf l).Nodup

instance (t : Todo) : Decidable (ValidTodo t) := by
  unfold ValidTodo; infer_instance

instance (l : List Todo) : Decidable (ValidList l) := by
  unfold ValidList; infer_instance

/-!
Lifecycle model for the persistence effects of `src/app/page.js`. The React
schedule is embedded explicitly: after each committed render, the effects
whose dependencies changed run in declaration order, and each effect body
sees the state of the render it belongs to (`setX` calls take effect at the
next render). Renders happen at mount and after each state change; each
store handler performs one `setTodos`, so one committed render — and hence
at most one run of the save effect — follows each successful mutation.
-/

/-- The component state the persistence effects read: the `todos` value
(untyped JSON, since the loaded `JSON.parse` result is installed verbatim),
and the `isLoading` / `isClient` / `error` cells of `src/app/page.js`. -/
structure LState where
  todos : Json
  isLoading : Bool
  isClient : Bool
  error : String

/-- The body of `saveTodos` (lines 112-122): returns the document it writes
under the fixed key, or `none` when its `if (!isClient) return` guard stops
it (the quota-failure catch path is outside this model: performed writes
succeed). -/
def saveTodosWrite (s : LState) : Option Json :=
  if !s.isClient then none else some s.todos

/-- The save `useEffect` (lines 124-128): invokes `saveTodos` only when
`!isLoading && isClient`; returns the write it performs, if any. -/
def saveEffectWrite (s : LState) : Option Json :=
  if !s.isLoading && s.isClient then saveTodosWrite s else none

/-- The mount sequence of the component, with the save effect invoked at
every point the React schedule invokes it:
render 0 (`isClient = false`, `isLoading = true`) runs the `setIsClient`
effect, the load effect (which returns at its `if (!isClient) return`
guard) and the save effect; render 1 (`isClient = true`) reruns the load
effect, which reads and parses the stored value, and the save effect;
render 2 carries the loaded todos and `isLoading = false`, and its save
effect run performs the first write, after which `saveTodos` clears the
error. Returns the settled state and the ordered log of writes performed. -/
def mount (cell : Stored) : LState × List Json :=
  let s0 : LState := ⟨.arr [], true, false, ""⟩
  let w0 := saveEffectWrite s0
  let s1 : LState := { s0 with isClient := true }
  let w1 := saveEffectWrite s1
  let loaded := loadEffect cell
  let s2 : LState := ⟨loaded.1, false, true, loaded.2⟩
  let w2 := saveEffectWrite s2
  let s3 : LState := if w2.isSome then { s2 with error := "" } else s2
  (s3, w0.toList ++ w1.toList ++ w2.toList)

/-- One successful mutation after mount: a store handler calls `setTodos`
with the new list; the following render runs the save effect against the new
state. Returns the new settled state and the writes performed. -/
def applyMutation (s : LState) (newTodos : Json) : LState × List Json :=
  let s1 : LState := { s with todos := newTodos }
  let w := saveEffectWrite s1
  let s2 : LState := if w.isSome then { s1 with error := "" } else s1
  (s2, w.toList)

/-- A sequence of successful mutations, concatenating the write logs. -/
def runMutations (s : LState) : List Json → LState × List Json
  | [] => (s, [])
  | m :: ms =>
    let step := applyMutation s m
    let rest := runMutations step.1 ms
    (rest.1, step.2 ++ rest.2)

/-! Theorems. -/

/-- C1: for every state and every raw input whose trimmed form is non-empty
and at most 200 characters, `addTodo` grows the list by exactly one record,
leaves every prior record unchanged in place, and the appended record has
`completed = false` and no completion timestamp. -/
theorem addTodo_appends_one (now : Nat) (rand createdAt : String) (s : AppState)
    (h1 : jsTrim s.inputValue ≠ "") (h2 : (jsTrim s.inputValue).length ≤ 200) :
    (addTodo now rand createdAt s).todos.length = s.todos.length + 1 ∧
    (addTodo now rand createdAt s).todos.take s.todos.length = s.todos ∧
    ∃ newTodo, (addTodo now rand createdAt s).todos = s.todos ++ [newTodo] ∧
      newTodo.completed = false ∧ newTodo.completedAt = none := by
  simp only [addTodo]
  rw [if_neg h1, if_neg (Nat.not_lt.mpr h2)]
  refine ⟨by simp, by simp [List.take_left], ?_⟩
  exact ⟨_, rfl, rfl, rfl⟩

/-- Witness for C1 at a concrete input. -/
theorem addTodo_appends_one_witness :
    (addTodo 7 "xyz" "c" { todos := [], inputValue := " hi ", error := "" }).todos.length = 1 :=
  (addTodo_appends_one 7 "xyz" "c" _ (by decide) (by decide)).1

/-- C2: `addTodo` reports an error exactly on invalid input. If the trimmed
input is empty the list is unchanged and the empty-input message is set; if
the trimmed input is longer than 200 characters the list is unchanged and the
too-long message is set; on valid input the list changes (a record is
appended) and no error is reported (the error is cleared). -/
theorem addTodo_validation (now : Nat) (rand createdAt : String) (s : AppState) :
    (jsTrim s.inputValue = "" →
      (addTodo now rand createdAt s).todos = s.todos ∧
      (addTodo now rand createdAt s).error = "Please enter a task.") ∧
    (jsTrim s.inputValue ≠ "" → (jsTrim s.inputValue).length > 200 →
      (addTodo now rand createdAt s).todos = s.todos ∧
      (addTodo now rand createdAt s).error =
        "Task is too long. Please keep it under 200 characters.") ∧
    (jsTrim s.inputValue ≠ "" → (jsTrim s.inputValue).length ≤ 200 →
      (addTodo now rand createdAt s).todos ≠ s.todos ∧
      (addTodo now rand createdAt s).error = "") := by
  refine ⟨fun h => ?_, fun h1 h2 => ?_, fun h1 h2 => ?_⟩
  · simp only [addTodo]
    rw [if_pos h]
    exact ⟨rfl, rfl⟩
  · simp only [addTodo]
    rw [if_neg h1, if_pos h2]
    exact ⟨rfl, rfl⟩
  · simp only [addTodo]
    rw [if_neg h1, if_neg (Nat.not_lt.mpr h2)]
    refine ⟨fun hEq => ?_, rfl⟩
    have := congrArg List.length hEq
    simp at this

/-- Witness for C2 at a concrete input (empty after trimming). -/
theorem addTodo_validation_witness :
    (addTodo 7 "xyz" "c" { todos := [], inputValue := "   ", error := "" }).error =
      "Please enter a task." :=
  ((addTodo_validation 7 "xyz" "c" _).1 (by decide)).2

/-- C5: `clearCompleted` leaves no completed record, and the records that
survive are exactly the not-completed ones, unmodified and in their original
relative order (the result is a sublist of the input containing every
not-completed record). -/
theorem clearCompleted_spec (s : AppState) :
    List.Sublist (clearCompleted s).todos s.todos ∧
    (∀ t ∈ (clearCompleted s).todos, t.completed = false) ∧
    (∀ t ∈ s.todos, t.completed = false → t ∈ (clearCompleted s).todos) := by
  refine ⟨?_, ?_, ?_⟩
  · exact List.filter_sublist s.todos
  · intro t ht
    have := List.of_mem_filter ht
    simpa using this
  · intro t ht hc
    exact List.mem_filter.mpr ⟨ht, by simp [hc]⟩

/-- Witness for C5 at a concrete state. -/
theorem clearCompleted_spec_witness :
    let t1 : Todo := ⟨"1-a", "walk", false, "c1", none⟩
    let t2 : Todo := ⟨"2-b", "shop", true, "c2", some "d2"⟩
    t1 ∈ (clearCompleted { todos := [t1, t2], inputValue := "", error := "" }).todos := by
  intro t1 t2
  exact (clearCompleted_spec _).2.2 t1 (by decide) (by decide)

/-- C6: toggling the same id twice returns the original list up to the value
of the `completedAt` field (the `completed` flags and every other field are
restored exactly; only the completion timestamp may differ between the two
passes). -/
theorem toggleTodo_twice (s : AppState) (id t1 t2 : String)
    (_h : id ∈ idsOf s.todos) :
    (toggleTodo id t2 (toggleTodo id t1 s)).todos.map forgetCompletedAt =
      s.todos.map forgetCompletedAt := by
  simp only [toggleTodo, List.map_map]
  apply List.map_congr_left
  intro t _
  by_cases hid : t.id = id
  · simp [Function.comp, hid, forgetCompletedAt, Bool.not_not]
  · simp [Function.comp, hid, forgetCompletedAt]

/-- Witness for C6 at a concrete state. -/
theorem toggleTodo_twice_witness :
    let t0 : Todo := ⟨"1-a", "walk", false, "c1", none⟩
    let s : AppState := { todos := [t0], inputValue := "", error := "" }
    (toggleTodo "1-a" "u2" (toggleTodo "1-a" "u1" s)).todos.map forgetCompletedAt =
      s.todos.map forgetCompletedAt := by
  intro t0 s
  exact toggleTodo_twice s "1-a" "u1" "u2" (by decide)

/-- C7: toggling or deleting an id that no record carries leaves the state
(list and error message alike) unchanged, and deleting the same id twice is
the same as deleting it once (the second call is a no-op). -/
theorem missing_id_noop (s : AppState) (id now : String)
    (h : id ∉ idsOf s.todos) :
    toggleTodo id now s = s ∧ deleteTodo id s = s ∧
    (toggleTodo id now s).error = s.error ∧ (deleteTodo id s).error = s.error ∧
    ∀ s' : AppState, deleteTodo id (deleteTodo id s') = deleteTodo id s' := by
  have hmem : ∀ t ∈ s.todos, ¬ t.id = id := by
    intro t ht hid
    exact h (List.mem_map.mpr ⟨t, ht, hid⟩)
  refine ⟨?_, ?_, ?_, ?_, ?_⟩
  · cases s with
    | mk todos inp err =>
      simp only [toggleTodo, AppState.mk.injEq, and_true]
      nth_rewrite 2 [show todos = todos.map (fun t => t) from (List.map_id todos).symm]
      apply List.map_congr_left
      intro t ht
      simp [hmem t ht]
  · cases s with
    | mk todos inp err =>
      simp only [deleteTodo, AppState.mk.injEq, and_true]
      apply List.filter_eq_self.mpr
      intro t ht
      simpa using hmem t ht
  · simp [toggleTodo]
  · simp [deleteTodo]
  · intro s'
    cases s' with
    | mk todos inp err =>
      simp only [deleteTodo, AppState.mk.injEq, and_true]
      apply List.filter_eq_self.mpr
      intro t ht
      exact (List.mem_filter.mp ht).2

/-- Witness for C7 at a concrete state. -/
theorem missing_id_noop_witness :
    let s : AppState := { todos := [⟨"1-a", "walk", false, "c1", none⟩],
                          inputValue := "", error := "" }
    toggleTodo "9-z" "u1" s = s :=
  (missing_id_noop _ "9-z" "u1" (by decide)).1

/-- One operation preserves the completion invariant. -/
theorem completionOk_applyOp (s : AppState) (op : Op)
    (h : ∀ t ∈ s.todos, CompletionOk t) :
    ∀ t ∈ (applyOp s op).todos, CompletionOk t := by
  intro t ht
  cases op with
  | add input now rand createdAt =>
    simp only [applyOp, addTodo] at ht
    split at ht
    · exact h t ht
    · split at ht
      · exact h t ht
      · rcases List.mem_append.mp ht with h1 | h2
        · exact h t h1
        · simp only [List.mem_singleton] at h2
          subst h2
          simp [CompletionOk]
  | toggle id now =>
    simp only [applyOp, toggleTodo] at ht
    rcases List.mem_map.mp ht with ⟨u, hu, rfl⟩
    by_cases hid : u.id = id
    · cases hc : u.completed <;> simp [hid, hc, CompletionOk]
    · simp only [hid, if_neg, if_false]
      exact h u hu
  | del id =>
    simp only [applyOp, deleteTodo] at ht
    exact h t (List.mem_filter.mp ht).1
  | clear =>
    simp only [applyOp, clearCompleted] at ht
    exact h t (List.mem_filter.mp ht).1

/-- Folding any operation sequence preserves the completion invariant. -/
theorem completionOk_foldl (ops : List Op) (s : AppState)
    (h : ∀ t ∈ s.todos, CompletionOk t) :
    ∀ t ∈ (ops.foldl applyOp s).todos, CompletionOk t := by
  induction ops generalizing s with
  | nil => simpa using h
  | cons op rest ih =>
    simpa using ih (applyOp s op) (completionOk_applyOp s op h)

/-- C3: after any sequence of add, toggle, delete and clear-completed
operations from the empty list, every record carries a completion timestamp
exactly when it is completed (toggling false-to-true installs the timestamp,
toggling back removes it, and a freshly added record has none). -/
theorem completedAt_iff_completed (ops : List Op) :
    ∀ t ∈ (runOps ops).todos, (t.completedAt.isSome ↔ t.completed = true) := by
  intro t ht
  exact completionOk_foldl ops initialState (by simp [initialState]) t ht

/-- Witness for C3 at a concrete trace and record. -/
theorem completedAt_iff_completed_witness :
    let t : Todo := ⟨"5-r", "a", true, "c", some "u"⟩
    (t.completedAt.isSome ↔ t.completed = true) :=
  completedAt_iff_completed [.add "a" 5 "r" "c", .toggle "5-r" "u"] _ (by decide)

/-- Toggling never changes any id. -/
theorem idsOf_toggleTodo (id now : String) (s : AppState) :
    idsOf (toggleTodo id now s).todos = idsOf s.todos := by
  simp only [toggleTodo, idsOf, List.map_map]
  apply List.map_congr_left
  intro t _
  by_cases hid : t.id = id <;> simp [Function.comp, hid]

/-- Deleting keeps a subsequence of the ids. -/
theorem idsOf_deleteTodo_sublist (id : String) (s : AppState) :
    List.Sublist (idsOf (deleteTodo id s).todos) (idsOf s.todos) :=
  List.Sublist.map _ (List.filter_sublist s.todos)

/-- Clearing completed records keeps a subsequence of the ids. -/
theorem idsOf_clearCompleted_sublist (s : AppState) :
    List.Sublist (idsOf (clearCompleted s).todos) (idsOf s.todos) :=
  List.Sublist.map _ (List.filter_sublist s.todos)

/-- Adding either leaves the ids unchanged (rejected input) or appends the
generated id. -/
theorem idsOf_addTodo (now : Nat) (rand createdAt : String) (s : AppState) :
    idsOf (addTodo now rand createdAt s).todos = idsOf s.todos ∨
    idsOf (addTodo now rand createdAt s).todos =
      idsOf s.todos ++ [generateId now rand] := by
  simp only [addTodo]
  split
  · exact Or.inl rfl
  · split
    · exact Or.inl rfl
    · right
      simp [idsOf]

/-- Auxiliary induction for C9 (amended): if the start ids are distinct and
disjoint from the ids yet to be generated, and those are pairwise distinct,
then every state along the run keeps distinct ids. -/
theorem ids_nodup_foldl (ops : List Op) (s : AppState)
    (h1 : (idsOf s.todos).Nodup)
    (h2 : (genIds ops).Nodup)
    (h3 : ∀ x ∈ idsOf s.todos, x ∉ genIds ops) :
    (idsOf (ops.foldl applyOp s).todos).Nodup := by
  induction ops generalizing s with
  | nil => simpa using h1
  | cons op rest ih =>
    simp only [List.foldl_cons]
    cases op with
    | add input now rand createdAt =>
      have hg : genIds (Op.add input now rand createdAt :: rest) =
          generateId now rand :: genIds rest := by
        simp [genIds, opGenId]
      rw [hg] at h2 h3
      have h2' : (genIds rest).Nodup := (List.nodup_cons.mp h2).2
      have hgid : generateId now rand ∉ genIds rest := (List.nodup_cons.mp h2).1
      have hs' : { s with inputValue := input : AppState }.todos = s.todos := rfl
      simp only [applyOp]
      rcases idsOf_addTodo now rand createdAt { s with inputValue := input } with hc | hc
      · apply ih
        · rw [hc, hs']; exact h1
        · exact h2'
        · rw [hc, hs']
          intro x hx
          exact fun hmem => (h3 x hx) (List.mem_cons_of_mem _ hmem)
      · apply ih
        · rw [hc, hs']
          rw [List.nodup_append]
          refine ⟨h1, List.nodup_singleton _, ?_⟩
          intro x hx hx'
          simp only [List.mem_singleton] at hx'
          subst hx'
          exact (h3 _ hx) (List.mem_cons_self _ _)
        · exact h2'
        · rw [hc, hs']
          intro x hx
          rcases List.mem_append.mp hx with hxl | hxr
          · exact fun hmem => (h3 x hxl) (List.mem_cons_of_mem _ hmem)
          · simp only [List.mem_singleton] at hxr
            subst hxr
            exact hgid
    | toggle id now =>
      apply ih
      · rw [show applyOp s (Op.toggle id now) = toggleTodo id now s from rfl,
            idsOf_toggleTodo]
        exact h1
      · simpa [genIds, opGenId] using h2
      · rw [show applyOp s (Op.toggle id now) = toggleTodo id now s from rfl,
            idsOf_toggleTodo]
        intro x hx
        have := h3 x hx
        simpa [genIds, opGenId] using this
    | del id =>
      have hsub := idsOf_deleteTodo_sublist id s
      apply ih
      · exact List.Nodup.sublist hsub h1
      · simpa [genIds, opGenId] using h2
      · intro x hx
        have := h3 x (hsub.subset hx)
        simpa [genIds, opGenId] using this
    | clear =>
      have hsub := idsOf_clearCompleted_sublist s
      apply ih
      · exact List.Nodup.sublist hsub h1
      · simpa [genIds, opGenId] using h2
      · intro x hx
        have := h3 x (hsub.subset hx)
        simpa [genIds, opGenId] using this

/-- C9 counterexample: two adds in the same millisecond with the same random
suffix produce the same id (`generateId` depends only on those two inputs),
so a reachable state holds two records with equal ids. -/
theorem duplicate_id_reachable :
    ¬ (idsOf (runOps [.add "a" 5 "r" "c1", .add "b" 5 "r" "c2"]).todos).Nodup := by
  decide

/-- C9 (amended): provided the ids generated across the add operations of the
run are pairwise distinct, no two records in any reachable state share an id. -/
theorem ids_nodup_of_fresh_ids (ops : List Op)
    (h : (genIds ops).Nodup) :
    (idsOf (runOps ops).todos).Nodup := by
  apply ids_nodup_foldl ops initialState
  · simp [initialState, idsOf]
  · exact h
  · simp [initialState, idsOf]

/-- Witness for the amended C9 at a concrete trace. -/
theorem ids_nodup_of_fresh_ids_witness :
    (idsOf (runOps [.add "a" 1 "r" "c1", .add "b" 2 "r" "c2"]).todos).Nodup :=
  ids_nodup_of_fresh_ids _ (by decide)

/-- Encoding then reading back one record is the identity. -/
theorem readTodo_encodeTodo (t : Todo) : readTodo (encodeTodo t) = some t := by
  cases t with
  | mk id text completed createdAt completedAt =>
    cases completedAt <;> rfl

/-- Encoding then reading back a list of records is the identity. -/
theorem readTodoList_map_encodeTodo (l : List Todo) :
    readTodoList (l.map encodeTodo) = some l := by
  induction l with
  | nil => rfl
  | cons t ts ih =>
    simp only [List.map_cons, readTodoList, readTodo_encodeTodo, ih]

/-- C4: for every list satisfying the data-model invariants, writing it to
the fixed key and then running the load effect against that key installs,
with no load error, a document that reads back as a list equal to the
original record for record. -/
theorem save_load_roundtrip (l : List Todo) (_h : ValidList l) :
    readTodos (loadEffect (saveTodos l)).1 = some l ∧
    (loadEffect (saveTodos l)).2 = "" := by
  refine ⟨?_, rfl⟩
  simp only [saveTodos, loadEffect, encodeTodos, readTodos]
  exact readTodoList_map_encodeTodo l

/-- Witness for C4 at a concrete valid list. -/
theorem save_load_roundtrip_witness :
    let l : List Todo := [⟨"1-a", "walk", false, "c1", none⟩,
                          ⟨"2-b", "shop", true, "c2", some "d2"⟩]
    readTodos (loadEffect (saveTodos l)).1 = some l := by
  intro l
  exact (save_load_roundtrip l (by decide)).1

/-- C10: the load effect reports the load failure and keeps the empty list
exactly when the stored value fails to parse; every value that parses is
installed verbatim, without any structural validation, including documents
that are not even arrays of records. -/
theorem load_installs_without_validation :
    (∀ c, (loadEffect c).2 ≠ "" ↔ c = .malformed) ∧
    loadEffect .malformed = (.arr [], "Failed to load saved todos. Starting fresh.") ∧
    (∀ j, loadEffect (.doc j) = (j, "")) ∧
    (∃ j, readTodos j = none ∧ loadEffect (.doc j) = (j, "")) := by
  refine ⟨?_, rfl, fun j => rfl, ⟨.str "hi", rfl, rfl⟩⟩
  intro c
  cases c with
  | empty => simp [loadEffect]
  | malformed => simp [loadEffect]
  | doc j => simp [loadEffect]

/-- After mount the readiness flags are settled. -/
theorem mount_flags (cell : Stored) :
    (mount cell).1.isLoading = false ∧ (mount cell).1.isClient = true := by
  simp [mount, saveEffectWrite, saveTodosWrite, loadEffect]

/-- A mutation performs exactly one whole-list write once the flags are
settled, and leaves the flags settled. -/
theorem applyMutation_writes (s : LState) (m : Json)
    (h1 : s.isLoading = false) (h2 : s.isClient = true) :
    (applyMutation s m).2 = [m] ∧
    (applyMutation s m).1.isLoading = false ∧ (applyMutation s m).1.isClient = true := by
  simp [applyMutation, saveEffectWrite, saveTodosWrite, h1, h2]

/-- With settled flags, a run of mutations writes exactly its list of new
values, in order. -/
theorem runMutations_writes (ms : List Json) (s : LState)
    (h1 : s.isLoading = false) (h2 : s.isClient = true) :
    (runMutations s ms).2 = ms := by
  induction ms generalizing s with
  | nil => rfl
  | cons m rest ih =>
    obtain ⟨hw, hl, hc⟩ := applyMutation_writes s m h1 h2
    simp only [runMutations, hw, ih (applyMutation s m).1 hl hc]
    rfl

/-- C8: across the whole lifecycle, the only write the mount phase performs
is the single post-load one (no write reaches the storage key before the
initial load has completed — the first two save-effect runs are stopped by
the `!isLoading && isClient` guard), and afterwards every successful
mutation triggers exactly one save, overwriting the stored value with the
full serialized list. -/
theorem save_after_load_only (cell : Stored) (ms : List Json) :
    (mount cell).2 = [(loadEffect cell).1] ∧
    (runMutations (mount cell).1 ms).2 = ms := by
  constructor
  · simp [mount, saveEffectWrite, saveTodosWrite]
  · obtain ⟨h1, h2⟩ := mount_flags cell
    exact runMutations_writes ms _ h1 h2
